import Mathlib

/-!
Verification of the path-generation and evolutionary-search core of the
Binaural-Pathfinder repository (`src/main.js`, second and most complete copy
of the algorithm, plus the SVG variant in `src/unnamed/part_000`).

Modelling conventions:
* JavaScript numbers are modelled by exact real arithmetic (`ℝ`); the PRNG
  state is a natural number below `2^32` and its outputs are exact rationals
  `s / 2^32`, as every quantity the program computes from them is rational
  until a Euclidean distance (square root) enters.
* The genome `fitness` field is an `EReal` so that the source's `-Infinity`
  initialisation (meaning "not yet evaluated") is represented faithfully by
  `⊥`; evaluated fitness values are coerced reals.
* Mutation of a JS object field is modelled by returning an updated copy.
* The THREE.js curve API used by `pathPoints` (`CubicBezierCurve3`,
  `CurvePath.getPoint`, `Curve.getLengths`, `Curve.getUtoTmapping`,
  `CurvePath.getSpacedPoints`) is embedded from its well-known sources,
  since the repository calls into it for all curve sampling.
-/

namespace BinauralPathfinder

/-- A THREE.Vector3: path geometry lives in the XZ plane with `y = 0`
but we keep all three components as the source does. -/
@[ext]
structure Vec3 where
  x : ℝ
  y : ℝ
  z : ℝ

def zero3 : Vec3 := ⟨0, 0, 0⟩

/-- Vector addition (`THREE.Vector3.addVectors`). -/
def vadd (a b : Vec3) : Vec3 := ⟨a.x + b.x, a.y + b.y, a.z + b.z⟩

/-- Vector subtraction (`THREE.Vector3.subVectors`). -/
def vsub (a b : Vec3) : Vec3 := ⟨a.x - b.x, a.y - b.y, a.z - b.z⟩

/-- Scalar multiple (`THREE.Vector3.multiplyScalar`). -/
def vscale (a : Vec3) (s : ℝ) : Vec3 := ⟨a.x * s, a.y * s, a.z * s⟩

/-- Euclidean distance (`THREE.Vector3.distanceTo`). -/
noncomputable def dist3 (a b : Vec3) : ℝ :=
  Real.sqrt ((a.x - b.x) ^ 2 + (a.y - b.y) ^ 2 + (a.z - b.z) ^ 2)

/-! ### Deterministic PRNG (`seedRandom` in `main.js`)

`seedRandom(seed)` keeps a 32-bit state `s = seed >>> 0` and each call to
`rand()` performs an xorshift32 round
(`s ^= s << 13; s ^= s >>> 17; s ^= s << 5`) and returns `(s >>> 0) / 2^32`.
JS 32-bit bitwise semantics are modelled on naturals below `2^32`:
`<< k` is multiplication by `2^k` modulo `2^32`, `>>> k` is division. -/

def xorshiftStep (s : ℕ) : ℕ :=
  let s1 := (s ^^^ (s * 2 ^ 13)) % 2 ^ 32
  let s2 := (s1 ^^^ (s1 / 2 ^ 17)) % 2 ^ 32
  (s2 ^^^ (s2 * 2 ^ 5)) % 2 ^ 32

/-- One call to `rand()`: advance the state, return the new state's value
scaled into `[0, 1)` together with the new state. -/
def randQ (s : ℕ) : ℚ × ℕ :=
  let s' := xorshiftStep s
  ((s' : ℚ) / 4294967296, s')

/-- The PRNG state after `n` calls to `rand()` when constructed with `seed`
(`seed >>> 0` normalisation included). -/
def randState (seed n : ℕ) : ℕ :=
  xorshiftStep^[n] (seed % 2 ^ 32)

/-- The value returned by the `n`-th call (0-indexed) to `rand()` for a
generator constructed with `seed`. -/
def nthRand (seed n : ℕ) : ℚ :=
  (randQ (randState seed n)).1

/-! ### World geometry, configuration, targeting mode -/

/-- The targeting mode (`TARGET` in `main.js`): `'either' | 'left' | 'right'`. -/
inductive Target where
  | either
  | left
  | right
deriving DecidableEq

/-- Initial value of the module-level `TARGET` variable (`let TARGET = 'either'`). -/
def defaultTarget : Target := Target.either

/-- The fixed world geometry consumed by the core (`WORLD` in `main.js`). -/
structure World where
  A : Vec3
  B : Vec3
  speakerL : Vec3
  speakerR : Vec3

/-- The concrete `WORLD` constant of the source. -/
def WORLD : World :=
  { A := ⟨-16, 0, 10⟩
    B := ⟨16, 0, -8⟩
    speakerL := ⟨-10, 0, -6⟩
    speakerR := ⟨12, 0, 6⟩ }

/-- Evolution configuration (`PARAMS` in `main.js`); probabilities and scales
are exact rationals. -/
structure Params where
  popSize : ℕ
  ctrlCount : ℕ
  mutationProb : ℚ
  mutationScale : ℚ
  crossProb : ℚ
  generations : ℕ

/-- The concrete `PARAMS` constant of the source (rendering-only fields
`stepsPerPath`/`autoplay` belong to the display layer). -/
def PARAMS : Params :=
  { popSize := 28
    ctrlCount := 4
    mutationProb := 0.25
    mutationScale := 4.0
    crossProb := 0.8
    generations := 45 }

/-- A genome: control points plus the cached `fitness` field, which starts
as `-Infinity` (here `⊥ : EReal`). -/
structure Genome where
  ctrl : List Vec3
  fitness : EReal

def defaultGenome : Genome := ⟨[], ⊥⟩

/-- Value copy of control points and fitness (`cloneGenome`). -/
def cloneGenome (g : Genome) : Genome := ⟨g.ctrl, g.fitness⟩

/-- Field intensity `intensityAtPoint(point, speakerPos, power)`:
`power / (d*d)` with `d = distanceTo + 0.2`. -/
noncomputable def intensityAtPoint (p speakerPos : Vec3) (power : ℝ) : ℝ :=
  let d := dist3 p speakerPos + 0.2
  power / (d * d)

/-! ### Curve construction (`pathPoints` and the THREE.js curve API)

`pathPoints` builds one `CubicBezierCurve3` per consecutive pair of
`[A, ...ctrl, B]` with finite-difference control points, assembles them into
a `CurvePath`, and samples `getSpacedPoints(steps)`. -/

/-- A `THREE.CubicBezierCurve3` with control points `v0 v1 v2 v3`. -/
structure CubicBezier where
  v0 : Vec3
  v1 : Vec3
  v2 : Vec3
  v3 : Vec3

def defaultBez : CubicBezier := ⟨zero3, zero3, zero3, zero3⟩

/-- Scalar cubic Bernstein evaluation (`CubicBezier` in
three.js `Interpolations.js`). -/
def cubicBernstein (t p0 p1 p2 p3 : ℝ) : ℝ :=
  p0 * (1 - t) ^ 3 + 3 * p1 * t * (1 - t) ^ 2 + 3 * p2 * t ^ 2 * (1 - t) + p3 * t ^ 3

/-- Bezier evaluation, `CubicBezierCurve3.getPoint(t)`. -/
def bezierPoint (c : CubicBezier) (t : ℝ) : Vec3 :=
  ⟨cubicBernstein t c.v0.x c.v1.x c.v2.x c.v3.x,
   cubicBernstein t c.v0.y c.v1.y c.v2.y c.v3.y,
   cubicBernstein t c.v0.z c.v1.z c.v2.z c.v3.z⟩

/-- The `k`-th of the 201 samples used by `Curve.getLengths()`
(`arcLengthDivisions = 200`). -/
noncomputable def bezSample (c : CubicBezier) (k : ℕ) : Vec3 :=
  bezierPoint c ((k : ℝ) / 200)

/-- Cumulative polyline length through sample `k`; `Curve.getLengths()`
pushes exactly these values (`cache[0] = 0`, then running sums of
consecutive sample distances). -/
noncomputable def bezArc (c : CubicBezier) (k : ℕ) : ℝ :=
  ∑ j ∈ Finset.range k, dist3 (bezSample c j) (bezSample c (j + 1))

/-- The 201-entry cumulative arc-length cache, `Curve.getLengths()`. -/
noncomputable def getLengths (c : CubicBezier) : List ℝ :=
  (List.range 201).map (bezArc c)

/-- Last entry of the cache, `Curve.getLength()`. -/
noncomputable def getLength (c : CubicBezier) : ℝ :=
  (getLengths c).getD 200 0

/-- The binary-search loop inside `Curve.getUtoTmapping`. Returns the JS
variable `i` after the loop (`i = high` on normal exit, the probe index on
an exact hit). `low`/`high` are integers because `high` may in principle
reach `-1`. -/
noncomputable def lutLoop (arcs : List ℝ) (target : ℝ) (low high : ℤ) : ℤ :=
  if _h : low ≤ high then
    if arcs.getD (low + (((high - low).toNat / 2 : ℕ) : ℤ)).toNat 0 - target < 0 then
      lutLoop arcs target (low + (((high - low).toNat / 2 : ℕ) : ℤ) + 1) high
    else if 0 < arcs.getD (low + (((high - low).toNat / 2 : ℕ) : ℤ)).toNat 0 - target then
      lutLoop arcs target low (low + (((high - low).toNat / 2 : ℕ) : ℤ) - 1)
    else
      low + (((high - low).toNat / 2 : ℕ) : ℤ)
  else high
termination_by (high + 1 - low).toNat
decreasing_by
  · omega
  · omega

/-- Arc-length reparameterisation `Curve.getUtoTmapping(u)` (no explicit `distance` argument is ever
passed by this program): binary search in the arc-length cache followed by
linear interpolation; `il - 1 = 200`. -/
noncomputable def getUtoTmapping (c : CubicBezier) (u : ℝ) : ℝ :=
  let arcs := getLengths c
  let target := u * arcs.getD 200 0
  let i := (lutLoop arcs target 0 200).toNat
  if arcs.getD i 0 = target then (i : ℝ) / 200
  else
    let lengthBefore := arcs.getD i 0
    let lengthAfter := arcs.getD (i + 1) 0
    ((i : ℝ) + (target - lengthBefore) / (lengthAfter - lengthBefore)) / 200

/-- Arc-length point lookup, `Curve.getPointAt(u)`. -/
noncomputable def getPointAt (c : CubicBezier) (u : ℝ) : Vec3 :=
  bezierPoint c (getUtoTmapping c u)

/-- The `i`-th cubic Bezier built inside `pathPoints` from the point list
`pts = [A, ...ctrl, B]`; neighbours are clamped to the array bounds and the
finite-difference control points use scale `t/3` with `t = 0.5`. -/
noncomputable def mkCurve (pts : List Vec3) (i : ℕ) : CubicBezier :=
  let p0 := pts.getD (i - 1) zero3
  let p1 := pts.getD i zero3
  let p2 := pts.getD (i + 1) zero3
  let p3 := pts.getD (min (pts.length - 1) (i + 2)) zero3
  let cp1 := vadd p1 (vscale (vsub p2 p0) (0.5 / 3))
  let cp2 := vadd p2 (vscale (vsub p1 p3) (0.5 / 3))
  ⟨p1, cp1, cp2, p2⟩

/-- The point list `[WORLD.A, ...genome.ctrl, WORLD.B]`. -/
def pathPts (world : World) (g : Genome) : List Vec3 :=
  world.A :: g.ctrl ++ [world.B]

/-- The curve list assembled into the `CurvePath`. -/
noncomputable def pathCurves (pts : List Vec3) : List CubicBezier :=
  (List.range (pts.length - 1)).map (mkCurve pts)

/-- Running sums of the member curves' lengths, `CurvePath.getCurveLengths()`;
lengths. -/
noncomputable def curveLengths (cs : List CubicBezier) : List ℝ :=
  (List.range cs.length).map (fun i => ∑ j ∈ Finset.range (i + 1), getLength (cs.getD j defaultBez))

/-- First index whose cumulative length is `≥ d` (the linear scan in
`CurvePath.getPoint`). -/
noncomputable def findFirstGE (d : ℝ) : List ℝ → Option ℕ
  | [] => none
  | L :: rest => if d ≤ L then some 0 else (findFirstGE d rest).map (· + 1)

/-- Whole-path sampling `CurvePath.getPoint(t)`: map `t` to a distance along the whole path,
locate the containing curve, and sample it at the corresponding
arc-length parameter. The JS code returns `null` when the scan fails
(unreachable for `0 ≤ t ≤ 1`); we return `zero3` there. -/
noncomputable def cpGetPoint (cs : List CubicBezier) (t : ℝ) : Vec3 :=
  let lens := curveLengths cs
  let d := t * lens.getD (cs.length - 1) 0
  match findFirstGE d lens with
  | none => zero3
  | some i =>
    let diff := lens.getD i 0 - d
    let curve := cs.getD i defaultBez
    let segmentLength := getLength curve
    let u := if segmentLength = 0 then 0 else 1 - diff / segmentLength
    getPointAt curve u

/-- Spaced sampling `CurvePath.getSpacedPoints(divisions)`: the `divisions + 1` points
`getPoint(i / divisions)` for `i = 0 .. divisions` (`autoClose` is false). -/
noncomputable def getSpacedPoints (cs : List CubicBezier) (divisions : ℕ) : List Vec3 :=
  (List.range (divisions + 1)).map (fun (i : ℕ) => cpGetPoint cs ((i : ℝ) / (divisions : ℝ)))

/-- The Curve Builder `pathPoints(genome, steps)` from `main.js`. -/
noncomputable def pathPoints (world : World) (g : Genome) (steps : ℕ) : List Vec3 :=
  getSpacedPoints (pathCurves (pathPts world g)) steps

/-! ### Fitness evaluation (`evaluateFitness` in `main.js`, second copy:
per-point loudness obeys the `TARGET` mode) -/

/-- The per-point loudness selected inside `evaluateFitness`:
`if (TARGET === 'left') loud = Il; else if (TARGET === 'right') loud = Ir;
else loud = Math.max(Il, Ir);`. -/
noncomputable def loudAt (world : World) (tgt : Target) (p : Vec3) : ℝ :=
  let Il := intensityAtPoint p world.speakerL 1.0
  let Ir := intensityAtPoint p world.speakerR 1.0
  if tgt = Target.left then Il else if tgt = Target.right then Ir else max Il Ir

/-- The accumulation loop of `evaluateFitness`: one pass over the sampled
points carrying the previous point (for the length term), the reward sum and
the running length. -/
noncomputable def fitLoop (world : World) (tgt : Target) :
    Option Vec3 → ℝ → ℝ → List Vec3 → ℝ × ℝ
  | _, sum, len, [] => (sum, len)
  | prev, sum, len, p :: rest =>
    fitLoop world tgt (some p) (sum + loudAt world tgt p)
      (match prev with
       | none => len
       | some q => len + dist3 q p) rest

/-- The Fitness Evaluator `evaluateFitness(genome)`: samples 80 spaced points, accumulates reward
and length, computes `sum - 0.25 * (len / 80) + 1.0`, writes it into the
genome's `fitness` field and returns it. -/
noncomputable def evaluateFitness (world : World) (tgt : Target) (g : Genome) : Genome × ℝ :=
  let pts := pathPoints world g 80
  let sl := fitLoop world tgt none 0 0 pts
  let distanceCost := sl.2 / 80
  let goalBonus : ℝ := 1.0
  let fitness := sl.1 - 0.25 * distanceCost + goalBonus
  ({ g with fitness := (fitness : EReal) }, fitness)

/-- Modelled from the spec: `reward(point, sourceL, sourceR, mode)`:
`mode=Either → max(Il, Ir)`, `mode=Left → Il`, `mode=Right → Ir`. -/
noncomputable def reward (world : World) (mode : Target) (p : Vec3) : ℝ :=
  match mode with
  | Target.either =>
      max (intensityAtPoint p world.speakerL 1.0) (intensityAtPoint p world.speakerR 1.0)
  | Target.left => intensityAtPoint p world.speakerL 1.0
  | Target.right => intensityAtPoint p world.speakerR 1.0

/-- Total reward of a sampled path (the `S` of the fitness formula). -/
noncomputable def sumReward (world : World) (mode : Target) (pts : List Vec3) : ℝ :=
  (pts.map (reward world mode)).sum

/-- Polyline length of a sampled path (the `len` of the fitness formula). -/
noncomputable def polyLen : List Vec3 → ℝ
  | a :: b :: rest => dist3 a b + polyLen (b :: rest)
  | _ => 0

/-! ### Evolutionary operators and the run (`main.js`) -/

/-- Linear interpolation `lerp(a, b, t) = a + (b - a) * t`. -/
def lerpR (a b t : ℝ) : ℝ := a + (b - a) * t

/-- JS `(x)|0` truncation for the nonnegative reals produced by
`rand() * pop.length`. -/
def jsFloor (q : ℚ) : ℕ := q.floor.toNat

/-- The loop of `makeGenome`: for index `i`, control point
`(lerp(A.x, B.x, (i+1)/(ctrlCount+1)) + (rand()*2-1)*8, 0,
lerp(A.z, B.z, (i+1)/(ctrlCount+1)) + (rand()*2-1)*6)`. -/
noncomputable def makeCtrlFrom (cfg : Params) (world : World) :
    ℕ → ℕ → ℕ → List Vec3 × ℕ
  | _, 0, s => ([], s)
  | i, n + 1, s =>
    let rx := randQ s
    let rz := randQ rx.2
    let p : Vec3 :=
      ⟨lerpR world.A.x world.B.x (((i : ℝ) + 1) / ((cfg.ctrlCount : ℝ) + 1))
          + ((rx.1 : ℝ) * 2 - 1) * 8, 0,
       lerpR world.A.z world.B.z (((i : ℝ) + 1) / ((cfg.ctrlCount : ℝ) + 1))
          + ((rz.1 : ℝ) * 2 - 1) * 6⟩
    let rest := makeCtrlFrom cfg world (i + 1) n rz.2
    (p :: rest.1, rest.2)

/-- Genome creation `makeGenome()`: `ctrlCount` fresh control points, fitness `-Infinity`. -/
noncomputable def makeGenome (cfg : Params) (world : World) (s : ℕ) : Genome × ℕ :=
  let r := makeCtrlFrom cfg world 0 cfg.ctrlCount s
  (⟨r.1, ⊥⟩, r.2)

/-- The loop of `makeInitialPopulation`. -/
noncomputable def makePop (cfg : Params) (world : World) : ℕ → ℕ → List Genome × ℕ
  | 0, s => ([], s)
  | n + 1, s =>
    let r := makeGenome cfg world s
    let rest := makePop cfg world n r.2
    (r.1 :: rest.1, rest.2)

/-- Initial population `makeInitialPopulation()`: `popSize` fresh genomes. -/
noncomputable def makeInitialPopulation (cfg : Params) (world : World) (s : ℕ) :
    List Genome × ℕ :=
  makePop cfg world cfg.popSize s

/-- The `k`-iteration loop of `tournamentSelect`: draw a random genome and
keep the better of it and the current best (`!best ||
g.fitness > best.fitness`). -/
noncomputable def tournamentLoop (pop : List Genome) :
    ℕ → Option Genome → ℕ → Option Genome × ℕ
  | 0, best, s => (best, s)
  | k + 1, best, s =>
    let r := randQ s
    let g := pop.getD (jsFloor (r.1 * pop.length)) defaultGenome
    let best' :=
      match best with
      | none => some g
      | some b => if b.fitness < g.fitness then some g else some b
    tournamentLoop pop k best' r.2

/-- Tournament selection `tournamentSelect(pop, k = 3)`: three draws, clone the winner. -/
noncomputable def tournamentSelect (pop : List Genome) (s : ℕ) : Genome × ℕ :=
  let r := tournamentLoop pop 3 none s
  (cloneGenome (r.1.getD defaultGenome), r.2)

/-- The per-index loop of `crossover`: a coin for the blend direction, then a
fraction `t`, then linear interpolation of the two parents' points. -/
noncomputable def crossLoop (a b : Genome) : ℕ → ℕ → ℕ → List Vec3 × ℕ
  | _, 0, s => ([], s)
  | i, n + 1, s =>
    let r1 := randQ s
    let pa := a.ctrl.getD i zero3
    let pb := b.ctrl.getD i zero3
    let r2 := randQ r1.2
    let t : ℝ := (r2.1 : ℝ)
    let x := if r1.1 < (0.5 : ℚ) then lerpR pa.x pb.x t else lerpR pb.x pa.x t
    let z := if r1.1 < (0.5 : ℚ) then lerpR pa.z pb.z t else lerpR pb.z pa.z t
    let rest := crossLoop a b (i + 1) n r2.2
    ((⟨x, 0, z⟩ : Vec3) :: rest.1, rest.2)

/-- Crossover `crossover(a, b)`: child with blended control points and fitness
`-Infinity`. -/
noncomputable def crossover (cfg : Params) (a b : Genome) (s : ℕ) : Genome × ℕ :=
  let r := crossLoop a b 0 cfg.ctrlCount s
  (⟨r.1, ⊥⟩, r.2)

/-- The per-point loop of `mutate`: with probability `mutationProb` add
offsets `(rand()*2-1)*scale` to `x` and `(rand()*2-1)*scale*0.8` to `z`. -/
noncomputable def mutateLoop (cfg : Params) : List Vec3 → ℕ → List Vec3 × ℕ
  | [], s => ([], s)
  | p :: rest, s =>
    let r := randQ s
    if r.1 < cfg.mutationProb then
      let rx := randQ r.2
      let rz := randQ rx.2
      let p' : Vec3 :=
        ⟨p.x + ((rx.1 : ℝ) * 2 - 1) * (cfg.mutationScale : ℝ), p.y,
         p.z + ((rz.1 : ℝ) * 2 - 1) * (cfg.mutationScale : ℝ) * 0.8⟩
      let rest' := mutateLoop cfg rest rz.2
      (p' :: rest'.1, rest'.2)
    else
      let rest' := mutateLoop cfg rest r.2
      (p :: rest'.1, rest'.2)

/-- Mutation `mutate(g)`: operates on a clone, keeps the (stale) fitness value. -/
noncomputable def mutate (cfg : Params) (g : Genome) (s : ℕ) : Genome × ℕ :=
  let r := mutateLoop cfg g.ctrl s
  (⟨r.1, g.fitness⟩, r.2)

/-- Stable descending insertion by fitness; models
`population.sort((a, b) => b.fitness - a.fitness)` (ECMAScript sort is
stable and the comparator orders by descending fitness). -/
noncomputable def insertByFitness (g : Genome) : List Genome → List Genome
  | [] => [g]
  | h :: t => if g.fitness < h.fitness then h :: insertByFitness g t else g :: h :: t

noncomputable def sortByFitness : List Genome → List Genome
  | [] => []
  | g :: t => insertByFitness g (sortByFitness t)

/-- One iteration of the breeding `while` loop: two tournament parents,
crossover with probability `crossProb` (otherwise a fair-coin clone of one
parent), then mutation. -/
noncomputable def breedOne (cfg : Params) (pop : List Genome) (s : ℕ) : Genome × ℕ :=
  let r1 := tournamentSelect pop s
  let r2 := tournamentSelect pop r1.2
  let rc := randQ r2.2
  let c :=
    if rc.1 < cfg.crossProb then crossover cfg r1.1 r2.1 rc.2
    else
      let rh := randQ rc.2
      (if rh.1 < (0.5 : ℚ) then cloneGenome r1.1 else cloneGenome r2.1, rh.2)
  mutate cfg c.1 c.2

/-- The breeding `while (newPop.length < PARAMS.popSize)` loop. -/
noncomputable def breedLoop (cfg : Params) (pop : List Genome) (acc : List Genome) (s : ℕ) :
    List Genome × ℕ :=
  if acc.length < cfg.popSize then
    breedLoop cfg pop (acc ++ [(breedOne cfg pop s).1]) (breedOne cfg pop s).2
  else (acc, s)
termination_by cfg.popSize - acc.length
decreasing_by
  simp only [List.length_append, List.length_cons, List.length_nil]
  omega

/-- Evaluate every genome of a population (`pop.forEach(evaluateFitness)`). -/
noncomputable def evalPop (world : World) (tgt : Target) (pop : List Genome) : List Genome :=
  pop.map (fun g => (evaluateFitness world tgt g).1)

/-- The driver state between generations: current (sorted, evaluated)
population, the best-ever genome (`lastBest`), the PRNG state, and the
generation counter (`gen`). -/
structure RunState where
  pop : List Genome
  lastBest : Genome
  rng : ℕ
  gen : ℕ

/-- One generation (`stepGen` in `runEvolution`): elitism, breeding to size,
evaluation, descending sort, best-ever update (strict improvement only;
`lastBest` is always set when `stepGen` runs, so the `!lastBest` disjunct of
the source is dead). -/
noncomputable def stepGen (cfg : Params) (world : World) (tgt : Target) (st : RunState) :
    RunState :=
  let bl := breedLoop cfg st.pop [cloneGenome (st.pop.getD 0 defaultGenome)] st.rng
  let sorted := sortByFitness (evalPop world tgt bl.1)
  let top := sorted.getD 0 defaultGenome
  let newBest := if st.lastBest.fitness < top.fitness then cloneGenome top else st.lastBest
  ⟨sorted, newBest, bl.2, st.gen + 1⟩

/-- The initialisation part of `runEvolution` for a given PRNG seed (the
source draws the seed via `Math.random()`; determinism is stated for a fixed
seed): seed the generator, create and evaluate the initial population, sort
it, and record `lastBest = cloneGenome(population[0])` at generation 0. -/
noncomputable def initState (cfg : Params) (world : World) (tgt : Target) (seed : ℕ) :
    RunState :=
  let s0 := seed % 2 ^ 32
  let mp := makeInitialPopulation cfg world s0
  let sorted := sortByFitness (evalPop world tgt mp.1)
  ⟨sorted, cloneGenome (sorted.getD 0 defaultGenome), mp.2, 0⟩

/-- The driver states at generations `0 .. generations` of one run. -/
noncomputable def runStates (cfg : Params) (world : World) (tgt : Target) (seed : ℕ) :
    List RunState :=
  (List.range (cfg.generations + 1)).map
    (fun n => (stepGen cfg world tgt)^[n] (initState cfg world tgt seed))

/-- The per-generation telemetry `(generationIndex, bestFitness)` (what
`updateHUD` reads: `gen` and `population[0].fitness`). -/
noncomputable def genTrace (cfg : Params) (world : World) (tgt : Target) (seed : ℕ) :
    List (ℕ × EReal) :=
  (runStates cfg world tgt seed).map
    (fun st => (st.gen, (st.pop.getD 0 defaultGenome).fitness))

/-- The best-ever genome held by the driver after each generation. -/
noncomputable def bestTrace (cfg : Params) (world : World) (tgt : Target) (seed : ℕ) :
    List Genome :=
  (runStates cfg world tgt seed).map (fun st => st.lastBest)

/-- The driver state when the generation budget is exhausted. -/
noncomputable def finalState (cfg : Params) (world : World) (tgt : Target) (seed : ℕ) :
    RunState :=
  (stepGen cfg world tgt)^[cfg.generations] (initState cfg world tgt seed)

/-! ### Speaker repositioning (`jitterSpeakers`) -/

/-- Source repositioning `jitterSpeakers(amount)`: jitter both speakers around their base
positions (four `rand()` draws: Lx, Lz, Rx, Rz), then if the two speakers
are closer than `minDist = 6.0`, push the second one's `x` coordinate to
exactly `minDist` away from the first. -/
noncomputable def jitterSpeakers (baseL baseR : Vec3) (amount : ℝ) (s : ℕ) :
    Vec3 × Vec3 × ℕ :=
  let r1 := randQ s
  let r2 := randQ r1.2
  let r3 := randQ r2.2
  let r4 := randQ r3.2
  let L : Vec3 :=
    ⟨baseL.x + ((r1.1 : ℝ) * 2 - 1) * amount, 0, baseL.z + ((r2.1 : ℝ) * 2 - 1) * amount⟩
  let R : Vec3 :=
    ⟨baseR.x + ((r3.1 : ℝ) * 2 - 1) * amount, 0, baseR.z + ((r4.1 : ℝ) * 2 - 1) * amount⟩
  if dist3 L R < 6.0 then
    if R.x ≤ L.x then (L, ⟨L.x + 6.0, R.y, R.z⟩, r4.2)
    else (L, ⟨L.x - 6.0, R.y, R.z⟩, r4.2)
  else (L, R, r4.2)

/-- A concrete genome (the four unjittered initial control-point centres for
the source's `WORLD` and `ctrlCount = 4`), used to evaluate claims at a
specific input. -/
def sampleGenome : Genome :=
  ⟨[⟨-9.6, 0, 6.4⟩, ⟨-3.2, 0, 2.8⟩, ⟨3.2, 0, -0.8⟩, ⟨9.6, 0, -4.4⟩], ⊥⟩

lemma dist3_nonneg (a b : Vec3) : 0 ≤ dist3 a b := Real.sqrt_nonneg _

lemma dist3_self (a : Vec3) : dist3 a a = 0 := by
  simp [dist3]

lemma dist3_eq_zero_iff {a b : Vec3} : dist3 a b = 0 ↔ a = b := by
  constructor
  · intro h
    have hx2 := sq_nonneg (a.x - b.x)
    have hy2 := sq_nonneg (a.y - b.y)
    have hz2 := sq_nonneg (a.z - b.z)
    have hsum : (a.x - b.x) ^ 2 + (a.y - b.y) ^ 2 + (a.z - b.z) ^ 2 = 0 := by
      have hnn : 0 ≤ (a.x - b.x) ^ 2 + (a.y - b.y) ^ 2 + (a.z - b.z) ^ 2 := by linarith
      have := Real.sqrt_eq_zero hnn |>.mp h
      exact this
    have hx : a.x - b.x = 0 := by
      have : (a.x - b.x) ^ 2 = 0 := by linarith
      exact pow_eq_zero_iff (n := 2) (by norm_num) |>.mp this
    have hy : a.y - b.y = 0 := by
      have : (a.y - b.y) ^ 2 = 0 := by linarith
      exact pow_eq_zero_iff (n := 2) (by norm_num) |>.mp this
    have hz : a.z - b.z = 0 := by
      have : (a.z - b.z) ^ 2 = 0 := by linarith
      exact pow_eq_zero_iff (n := 2) (by norm_num) |>.mp this
    ext <;> linarith
  · rintro rfl; exact dist3_self a

lemma xorshiftStep_zero : xorshiftStep 0 = 0 := by decide

lemma randState_zero (n : ℕ) : randState 0 n = 0 := by
  induction n with
  | zero => simp [randState]
  | succ k ih =>
    have : randState 0 (k + 1) = xorshiftStep (randState 0 k) := by
      simp [randState, Function.iterate_succ_apply']
    rw [this, ih, xorshiftStep_zero]

lemma bezierPoint_zero (c : CubicBezier) : bezierPoint c 0 = c.v0 := by
  ext <;> simp [bezierPoint, cubicBernstein]

lemma bezierPoint_one (c : CubicBezier) : bezierPoint c 1 = c.v3 := by
  ext <;> simp [bezierPoint, cubicBernstein]

/-! ### Arc-length cache facts -/

lemma getD_map_range {α : Type} (f : ℕ → α) (n k : ℕ) (d : α) :
    ((List.range n).map f).getD k d = if k < n then f k else d := by
  rcases Nat.lt_or_ge k n with h | h
  · rw [List.getD_eq_getElem?_getD, List.getElem?_map]
    simp [List.getElem?_eq_getElem, h, List.getElem_range]
  · rw [List.getD_eq_getElem?_getD, List.getElem?_map]
    rw [List.getElem?_eq_none (by simpa using h)]
    simp [Nat.not_lt.mpr h]

lemma bezArc_nonneg (c : CubicBezier) (k : ℕ) : 0 ≤ bezArc c k :=
  Finset.sum_nonneg fun _ _ => dist3_nonneg _ _

lemma bezArc_mono (c : CubicBezier) {j k : ℕ} (h : j ≤ k) : bezArc c j ≤ bezArc c k :=
  Finset.sum_le_sum_of_subset_of_nonneg (Finset.range_subset.mpr h)
    (fun _ _ _ => dist3_nonneg _ _)

lemma getLengths_getD (c : CubicBezier) (k : ℕ) :
    (getLengths c).getD k 0 = if k < 201 then bezArc c k else 0 := by
  rw [getLengths, getD_map_range]

lemma getLengths_getD_nonneg (c : CubicBezier) (k : ℕ) :
    0 ≤ (getLengths c).getD k 0 := by
  rw [getLengths_getD]
  split
  · exact bezArc_nonneg c k
  · exact le_refl 0

lemma getLength_eq (c : CubicBezier) : getLength c = bezArc c 200 := by
  rw [getLength, getLengths_getD]
  norm_num

lemma getLength_nonneg (c : CubicBezier) : 0 ≤ getLength c := by
  rw [getLength_eq]; exact bezArc_nonneg c 200

/-- If `f` is locally constant on `[a, b]` then `f a = f b`. -/
lemma chain_eq {α : Type} (f : ℕ → α) {a b : ℕ} (hab : a ≤ b)
    (h : ∀ j, a ≤ j → j < b → f j = f (j + 1)) : f a = f b := by
  induction b, hab using Nat.le_induction with
  | base => rfl
  | succ b hab ih =>
    have h1 : f a = f b := ih (fun j hj hjb => h j hj (Nat.lt_succ_of_lt hjb))
    rw [h1, h b hab (Nat.lt_succ_self b)]

lemma bezSample_collapse_left (c : CubicBezier) {i : ℕ} (h : bezArc c i = 0) :
    bezSample c i = bezSample c 0 := by
  have hz : ∀ j ∈ Finset.range i, dist3 (bezSample c j) (bezSample c (j + 1)) = 0 := by
    rw [bezArc, Finset.sum_eq_zero_iff_of_nonneg (fun _ _ => dist3_nonneg _ _)] at h
    exact h
  exact (chain_eq (bezSample c) (Nat.zero_le i) fun j _ hj =>
    dist3_eq_zero_iff.mp (hz j (Finset.mem_range.mpr hj))).symm

lemma bezSample_collapse_right (c : CubicBezier) {i : ℕ} (hi : i ≤ 200)
    (h : bezArc c i = bezArc c 200) : bezSample c i = bezSample c 200 := by
  have hsplit : bezArc c i + ∑ j ∈ Finset.Ico i 200, dist3 (bezSample c j) (bezSample c (j + 1))
      = bezArc c 200 := by
    rw [bezArc, bezArc, Finset.range_eq_Ico]
    exact Finset.sum_Ico_consecutive _ (Nat.zero_le i) hi
  have htail : ∑ j ∈ Finset.Ico i 200, dist3 (bezSample c j) (bezSample c (j + 1)) = 0 := by
    linarith [hsplit, h]
  have hz : ∀ j ∈ Finset.Ico i 200, dist3 (bezSample c j) (bezSample c (j + 1)) = 0 := by
    rw [Finset.sum_eq_zero_iff_of_nonneg (fun _ _ => dist3_nonneg _ _)] at htail
    exact htail
  exact chain_eq (bezSample c) hi fun j hj hjb =>
    dist3_eq_zero_iff.mp (hz j (Finset.mem_Ico.mpr ⟨hj, hjb⟩))

lemma bezSample_zero (c : CubicBezier) : bezSample c 0 = c.v0 := by
  rw [bezSample]
  norm_num [bezierPoint_zero]

lemma bezSample_top (c : CubicBezier) : bezSample c 200 = c.v3 := by
  rw [bezSample]
  norm_num [bezierPoint_one]

lemma getLength_zero_collapse (c : CubicBezier) (h : getLength c = 0) : c.v0 = c.v3 := by
  rw [getLength_eq] at h
  have := bezSample_collapse_left c (i := 200) h
  rw [bezSample_zero, bezSample_top] at this
  exact this.symm

/-! ### Binary-search specification at the two parameter extremes -/

lemma lutLoop_target_zero (arcs : List ℝ) (h0 : arcs.getD 0 0 = 0)
    (hnn : ∀ j : ℕ, 0 ≤ arcs.getD j 0) :
    ∀ n : ℕ, ∀ high : ℤ, 0 ≤ high → high.toNat ≤ n →
      ∃ i : ℕ, lutLoop arcs 0 0 high = (i : ℤ) ∧ arcs.getD i 0 = 0 ∧ (i : ℤ) ≤ high := by
  intro n
  induction n with
  | zero =>
    intro high h1 h2
    have hh : high = 0 := by omega
    subst hh
    refine ⟨0, ?_, h0, by norm_num⟩
    rw [lutLoop, dif_pos (le_refl (0 : ℤ))]
    have e1 : ((0 : ℤ) - (0 : ℤ)).toNat / 2 = 0 := by omega
    rw [e1]
    simp only [Nat.cast_zero, add_zero, Int.toNat_zero, h0, sub_zero]
    norm_num
  | succ n ih =>
    intro high h1 h2
    set m : ℤ := 0 + (((high - 0).toNat / 2 : ℕ) : ℤ) with hm
    have hm0 : 0 ≤ m := by positivity
    have hmh : m ≤ high := by omega
    have hcmp : 0 ≤ arcs.getD m.toNat 0 := hnn m.toNat
    rw [lutLoop, dif_pos h1, ← hm]
    rw [if_neg (not_lt.mpr (by rw [sub_zero]; exact hcmp))]
    by_cases hpos : 0 < arcs.getD m.toNat 0 - 0
    · rw [if_pos hpos]
      have hmne : m ≠ 0 := by
        intro h
        rw [h, Int.toNat_zero] at hpos
        rw [h0] at hpos
        linarith
      have hrec := ih (m - 1) (by omega) (by omega)
      obtain ⟨i, hi, hi0, hile⟩ := hrec
      exact ⟨i, hi, hi0, by omega⟩
    · rw [if_neg hpos]
      refine ⟨m.toNat, by omega, ?_, by omega⟩
      have : arcs.getD m.toNat 0 - 0 = 0 := by linarith [not_lt.mp hpos]
      linarith

lemma lutLoop_target_top (arcs : List ℝ) (target : ℝ) (N : ℕ)
    (hub : ∀ j : ℕ, j ≤ N → arcs.getD j 0 ≤ target)
    (hN : arcs.getD N 0 = target) :
    ∀ n : ℕ, ∀ low : ℤ, 0 ≤ low → low ≤ (N : ℤ) → ((N : ℤ) - low).toNat ≤ n →
      ∃ i : ℕ, lutLoop arcs target low N = (i : ℤ) ∧ arcs.getD i 0 = target ∧ i ≤ N := by
  intro n
  induction n with
  | zero =>
    intro low h1 h2 h3
    have hl : low = (N : ℤ) := by omega
    subst hl
    refine ⟨N, ?_, hN, le_refl N⟩
    rw [lutLoop, dif_pos (le_refl (N : ℤ))]
    have e1 : ((N : ℤ) - (N : ℤ)).toNat / 2 = 0 := by omega
    rw [e1]
    simp only [Nat.cast_zero, add_zero, Int.toNat_natCast, hN, sub_self]
    norm_num
  | succ n ih =>
    intro low h1 h2 h3
    set m : ℤ := low + ((((N : ℤ) - low).toNat / 2 : ℕ) : ℤ) with hm
    have hml : low ≤ m := by omega
    have hmN : m ≤ (N : ℤ) := by omega
    have hmnn : 0 ≤ m := by omega
    have hub' : arcs.getD m.toNat 0 ≤ target := hub m.toNat (by omega)
    rw [lutLoop, dif_pos h2, ← hm]
    by_cases hlt : arcs.getD m.toNat 0 - target < 0
    · rw [if_pos hlt]
      have hmne : m ≠ (N : ℤ) := by
        intro h
        rw [h, Int.toNat_natCast] at hlt
        rw [hN] at hlt
        linarith
      have hrec := ih (m + 1) (by omega) (by omega) (by omega)
      obtain ⟨i, hi, hi0, hile⟩ := hrec
      exact ⟨i, hi, hi0, hile⟩
    · rw [if_neg hlt, if_neg (by linarith [not_lt.mp hlt, hub'])]
      refine ⟨m.toNat, by omega, ?_, by omega⟩
      have : arcs.getD m.toNat 0 - target = 0 := by linarith [not_lt.mp hlt, hub']
      linarith

/-! ### Endpoint behaviour of arc-length sampling -/

lemma getPointAt_zero (c : CubicBezier) : getPointAt c 0 = c.v0 := by
  have h0 : (getLengths c).getD 0 0 = 0 := by
    rw [getLengths_getD]
    norm_num [bezArc]
  obtain ⟨i, hloop, hzero, hle⟩ :=
    lutLoop_target_zero (getLengths c) h0 (getLengths_getD_nonneg c) 200 200
      (by norm_num) (by norm_num)
  have hle' : i ≤ 200 := by exact_mod_cast hle
  have harc : bezArc c i = 0 := by
    rw [getLengths_getD, if_pos (by omega : i < 201)] at hzero
    exact hzero
  rw [getPointAt]
  simp only [getUtoTmapping, zero_mul]
  rw [hloop, Int.toNat_natCast, if_pos hzero]
  have hs : bezierPoint c ((i : ℝ) / 200) = bezSample c i := rfl
  rw [hs, bezSample_collapse_left c harc, bezSample_zero]

lemma getPointAt_one (c : CubicBezier) : getPointAt c 1 = c.v3 := by
  have h200 : (getLengths c).getD 200 0 = bezArc c 200 := by
    rw [getLengths_getD]
    norm_num
  have hub : ∀ j : ℕ, j ≤ 200 → (getLengths c).getD j 0 ≤ bezArc c 200 := by
    intro j hj
    rw [getLengths_getD, if_pos (by omega : j < 201)]
    exact bezArc_mono c hj
  obtain ⟨i, hloop, htar, hle⟩ :=
    lutLoop_target_top (getLengths c) (bezArc c 200) 200 hub h200 200 0
      (by norm_num) (by norm_num) (by norm_num)
  have hloop' : lutLoop (getLengths c) (bezArc c 200) 0 200 = (i : ℤ) := by
    exact_mod_cast hloop
  have harc : bezArc c i = bezArc c 200 := by
    rw [getLengths_getD, if_pos (by omega : i < 201)] at htar
    exact htar
  rw [getPointAt]
  simp only [getUtoTmapping, one_mul]
  rw [h200, hloop', Int.toNat_natCast, if_pos htar]
  have hs : bezierPoint c ((i : ℝ) / 200) = bezSample c i := rfl
  rw [hs, bezSample_collapse_right c hle harc, bezSample_top]

/-! ### `CurvePath.getPoint` endpoint behaviour -/

lemma curveLengths_getD (cs : List CubicBezier) (k : ℕ) :
    (curveLengths cs).getD k 0 =
      if k < cs.length then ∑ j ∈ Finset.range (k + 1), getLength (cs.getD j defaultBez)
      else 0 := by
  rw [curveLengths, getD_map_range]

lemma curveLengths_length (cs : List CubicBezier) :
    (curveLengths cs).length = cs.length := by
  simp [curveLengths]

lemma findFirstGE_spec {d : ℝ} :
    ∀ {l : List ℝ} {i : ℕ}, findFirstGE d l = some i →
      i < l.length ∧ d ≤ l.getD i 0 ∧ ∀ j < i, l.getD j 0 < d := by
  intro l
  induction l with
  | nil =>
    intro i h
    simp [findFirstGE] at h
  | cons L rest ih =>
    intro i h
    rw [findFirstGE] at h
    by_cases hd : d ≤ L
    · rw [if_pos hd] at h
      have hi : i = 0 := by simpa using h.symm
      subst hi
      exact ⟨by simp, by simpa using hd, by omega⟩
    · rw [if_neg hd] at h
      cases hfr : findFirstGE d rest with
      | none =>
        rw [hfr] at h
        simp at h
      | some i' =>
        rw [hfr] at h
        have hi : i = i' + 1 := by simpa using h.symm
        subst hi
        obtain ⟨hlen, hge, hlt⟩ := ih hfr
        refine ⟨by simpa using hlen, by simpa using hge, ?_⟩
        intro j hj
        cases j with
        | zero => simpa using lt_of_not_le hd
        | succ j' =>
          rw [List.getD_cons_succ]
          exact hlt j' (by omega)

lemma findFirstGE_exists {d : ℝ} :
    ∀ {l : List ℝ}, (∃ x ∈ l, d ≤ x) → ∃ i, findFirstGE d l = some i := by
  intro l
  induction l with
  | nil =>
    rintro ⟨x, hx, -⟩
    simp at hx
  | cons L rest ih =>
    rintro ⟨x, hx, hdx⟩
    rw [findFirstGE]
    by_cases hd : d ≤ L
    · exact ⟨0, by rw [if_pos hd]⟩
    · rw [if_neg hd]
      have hxr : x ∈ rest := by
        rcases List.mem_cons.mp hx with h | h
        · exact absurd (h ▸ hdx) hd
        · exact h
      obtain ⟨i, hi⟩ := ih ⟨x, hxr, hdx⟩
      exact ⟨i + 1, by rw [hi]; rfl⟩

lemma cpGetPoint_zero (cs : List CubicBezier) (h : cs ≠ []) :
    cpGetPoint cs 0 = (cs.getD 0 defaultBez).v0 := by
  have hlen : 0 < cs.length := List.length_pos.mpr h
  have hl0 : (curveLengths cs).getD 0 0 = getLength (cs.getD 0 defaultBez) := by
    rw [curveLengths_getD, if_pos hlen]
    simp
  obtain ⟨L, rest, hcl⟩ : ∃ L rest, curveLengths cs = L :: rest := by
    cases hcl : curveLengths cs with
    | nil =>
      have hcll := curveLengths_length cs
      rw [hcl] at hcll
      simp at hcll
      omega
    | cons L rest => exact ⟨L, rest, rfl⟩
  have hLnn : 0 ≤ L := by
    have h' := hl0
    rw [hcl, List.getD_cons_zero] at h'
    rw [h']
    exact getLength_nonneg _
  have hfind : findFirstGE 0 (curveLengths cs) = some 0 := by
    rw [hcl, findFirstGE, if_pos hLnn]
  simp only [cpGetPoint, zero_mul]
  rw [hfind]
  show getPointAt (cs.getD 0 defaultBez)
      (if getLength (cs.getD 0 defaultBez) = 0 then 0
       else 1 - ((curveLengths cs).getD 0 0 - 0) / getLength (cs.getD 0 defaultBez))
    = (cs.getD 0 defaultBez).v0
  by_cases hseg : getLength (cs.getD 0 defaultBez) = 0
  · rw [if_pos hseg, getPointAt_zero]
  · rw [if_neg hseg, sub_zero, hl0, div_self hseg, sub_self, getPointAt_zero]

/-! Endpoint lemmas about the curves assembled by `pathPoints`. -/

lemma mkCurve_v0 (pts : List Vec3) (i : ℕ) : (mkCurve pts i).v0 = pts.getD i zero3 := rfl

lemma mkCurve_v3 (pts : List Vec3) (i : ℕ) :
    (mkCurve pts i).v3 = pts.getD (i + 1) zero3 := rfl

lemma pathCurves_length (pts : List Vec3) : (pathCurves pts).length = pts.length - 1 := by
  simp [pathCurves]

lemma pathCurves_getD (pts : List Vec3) {i : ℕ} (h : i < pts.length - 1) :
    (pathCurves pts).getD i defaultBez = mkCurve pts i := by
  rw [pathCurves, getD_map_range, if_pos h]

lemma cpGetPoint_one (pts : List Vec3) (h2 : 2 ≤ pts.length) :
    cpGetPoint (pathCurves pts) 1 = pts.getD (pts.length - 1) zero3 := by
  set cs := pathCurves pts with hcsdef
  have hcsl : cs.length = pts.length - 1 := pathCurves_length pts
  have hcs1 : 1 ≤ cs.length := by omega
  set total := (curveLengths cs).getD (cs.length - 1) 0 with htotal
  have htot : total = ∑ j ∈ Finset.range cs.length, getLength (cs.getD j defaultBez) := by
    rw [htotal, curveLengths_getD, if_pos (by omega : cs.length - 1 < cs.length)]
    have h1 : cs.length - 1 + 1 = cs.length := by omega
    rw [h1]
  have hmem : total ∈ curveLengths cs := by
    rw [htotal, curveLengths_getD, if_pos (by omega : cs.length - 1 < cs.length), curveLengths]
    exact List.mem_map.mpr ⟨cs.length - 1, List.mem_range.mpr (by omega), rfl⟩
  obtain ⟨i, hfind⟩ := findFirstGE_exists ⟨total, hmem, le_refl total⟩
  obtain ⟨hilen, hige, -⟩ := findFirstGE_spec hfind
  rw [curveLengths_length] at hilen
  have hisum : (curveLengths cs).getD i 0
      = ∑ j ∈ Finset.range (i + 1), getLength (cs.getD j defaultBez) := by
    rw [curveLengths_getD, if_pos hilen]
  have hle : (curveLengths cs).getD i 0 ≤ total := by
    rw [hisum, htot]
    exact Finset.sum_le_sum_of_subset_of_nonneg
      (Finset.range_subset.mpr (by omega)) (fun _ _ _ => getLength_nonneg _)
  have heq : (curveLengths cs).getD i 0 = total := le_antisymm hle hige
  have htail : ∀ j, i + 1 ≤ j → j < cs.length → getLength (cs.getD j defaultBez) = 0 := by
    have hsplit : (∑ j ∈ Finset.range (i + 1), getLength (cs.getD j defaultBez))
        + ∑ j ∈ Finset.Ico (i + 1) cs.length, getLength (cs.getD j defaultBez)
        = ∑ j ∈ Finset.range cs.length, getLength (cs.getD j defaultBez) := by
      rw [Finset.range_eq_Ico]
      exact Finset.sum_Ico_consecutive _ (by omega) (by omega)
    have hz : ∑ j ∈ Finset.Ico (i + 1) cs.length, getLength (cs.getD j defaultBez) = 0 := by
      have h1 : (curveLengths cs).getD i 0
          = ∑ j ∈ Finset.range (i + 1), getLength (cs.getD j defaultBez) := hisum
      rw [heq, htot] at h1
      linarith [hsplit, h1]
    intro j hj1 hj2
    exact (Finset.sum_eq_zero_iff_of_nonneg (fun _ _ => getLength_nonneg _)).mp hz j
      (Finset.mem_Ico.mpr ⟨hj1, hj2⟩)
  have hstep : ∀ j, i + 1 ≤ j → j < cs.length → pts.getD j zero3 = pts.getD (j + 1) zero3 := by
    intro j hj1 hj2
    have hz : getLength (mkCurve pts j) = 0 := by
      rw [← pathCurves_getD pts (by omega : j < pts.length - 1), ← hcsdef]
      exact htail j hj1 hj2
    have := getLength_zero_collapse _ hz
    rw [mkCurve_v0, mkCurve_v3] at this
    exact this
  have hchain : pts.getD (i + 1) zero3 = pts.getD cs.length zero3 :=
    chain_eq (fun j => pts.getD j zero3) (by omega) hstep
  simp only [cpGetPoint, one_mul]
  rw [← htotal, hfind]
  show getPointAt (cs.getD i defaultBez)
      (if getLength (cs.getD i defaultBez) = 0 then 0
       else 1 - ((curveLengths cs).getD i 0 - total) / getLength (cs.getD i defaultBez))
    = pts.getD (pts.length - 1) zero3
  by_cases hseg : getLength (cs.getD i defaultBez) = 0
  · rw [if_pos hseg, getPointAt_zero]
    have hv0 : (cs.getD i defaultBez).v0 = pts.getD i zero3 := by
      rw [hcsdef, pathCurves_getD pts (by omega : i < pts.length - 1), mkCurve_v0]
    have hself : pts.getD i zero3 = pts.getD (i + 1) zero3 := by
      have := getLength_zero_collapse _ (by
        rw [hcsdef, pathCurves_getD pts (by omega : i < pts.length - 1)] at hseg
        exact hseg)
      rw [mkCurve_v0, mkCurve_v3] at this
      exact this
    rw [hv0, hself, hchain, hcsl]
  · rw [if_neg hseg, heq, sub_self, zero_div, sub_zero, getPointAt_one]
    have hv3 : (cs.getD i defaultBez).v3 = pts.getD (i + 1) zero3 := by
      rw [hcsdef, pathCurves_getD pts (by omega : i < pts.length - 1), mkCurve_v3]
    rw [hv3, hchain, hcsl]

/-! ### Sampled-path counting and endpoints -/

lemma pathPoints_length (world : World) (g : Genome) (steps : ℕ) :
    (pathPoints world g steps).length = steps + 1 := by
  simp [pathPoints, getSpacedPoints]

lemma pathPts_length (world : World) (g : Genome) :
    (pathPts world g).length = g.ctrl.length + 2 := by
  simp [pathPts]

lemma pathCurves_ne_nil (world : World) (g : Genome) :
    pathCurves (pathPts world g) ≠ [] := by
  have hl := pathCurves_length (pathPts world g)
  rw [pathPts_length] at hl
  intro hnil
  rw [hnil] at hl
  simp at hl

lemma getD_append_singleton {α : Type} (l : List α) (b d : α) :
    (l ++ [b]).getD l.length d = b := by
  induction l with
  | nil => rfl
  | cons a t ih => simp [ih]

lemma pathPts_first (world : World) (g : Genome) :
    (pathPts world g).getD 0 zero3 = world.A := rfl

lemma pathPts_last (world : World) (g : Genome) :
    (pathPts world g).getD ((pathPts world g).length - 1) zero3 = world.B := by
  rw [pathPts_length]
  show (world.A :: (g.ctrl ++ [world.B])).getD (g.ctrl.length + 1) zero3 = world.B
  rw [List.getD_cons_succ]
  exact getD_append_singleton g.ctrl world.B zero3

lemma pathPoints_headD (world : World) (g : Genome) (steps : ℕ) :
    (pathPoints world g steps).headD zero3 = world.A := by
  rw [pathPoints, getSpacedPoints, List.range_succ_eq_map]
  simp only [List.map_cons, List.headD_cons, Nat.cast_zero, zero_div]
  rw [cpGetPoint_zero _ (pathCurves_ne_nil world g)]
  rw [pathCurves_getD (pathPts world g) (by rw [pathPts_length]; omega), mkCurve_v0,
    pathPts_first]

lemma pathPoints_getLastD (world : World) (g : Genome) (steps : ℕ) (h : 0 < steps) :
    (pathPoints world g steps).getLastD zero3 = world.B := by
  rw [pathPoints, getSpacedPoints]
  have hr : List.range (steps + 1) = List.range steps ++ [steps] := by
    have h' := List.range_succ (n := steps)
    simpa using h'
  rw [hr, List.map_append, List.map_cons, List.map_nil, List.getLastD_concat]
  have hdiv : (steps : ℝ) / (steps : ℝ) = 1 :=
    div_self (Nat.cast_ne_zero.mpr (by omega))
  rw [hdiv, cpGetPoint_one (pathPts world g) (by rw [pathPts_length]; omega)]
  exact pathPts_last world g

/-! ### Fitness-loop closed form -/

lemma polyLen_nil : polyLen [] = 0 := rfl

lemma polyLen_single (a : Vec3) : polyLen [a] = 0 := rfl

lemma polyLen_cons2 (a b : Vec3) (l : List Vec3) :
    polyLen (a :: b :: l) = dist3 a b + polyLen (b :: l) := rfl

lemma loudAt_eq_reward (world : World) (tgt : Target) (p : Vec3) :
    loudAt world tgt p = reward world tgt p := by
  cases tgt <;> simp [loudAt, reward]

lemma fitLoop_some (world : World) (tgt : Target) :
    ∀ (pts : List Vec3) (q : Vec3) (sum len : ℝ),
      fitLoop world tgt (some q) sum len pts
        = (sum + sumReward world tgt pts, len + polyLen (q :: pts)) := by
  intro pts
  induction pts with
  | nil =>
    intro q sum len
    simp [fitLoop, sumReward, polyLen_single]
  | cons p rest ih =>
    intro q sum len
    rw [fitLoop, ih]
    simp only [Prod.mk.injEq, sumReward, List.map_cons, List.sum_cons, polyLen_cons2,
      loudAt_eq_reward]
    constructor <;> ring_nf

lemma fitLoop_none (world : World) (tgt : Target) (pts : List Vec3) (sum len : ℝ) :
    fitLoop world tgt none sum len pts
      = (sum + sumReward world tgt pts, len + polyLen pts) := by
  cases pts with
  | nil => simp [fitLoop, sumReward, polyLen_nil]
  | cons p rest =>
    rw [fitLoop, fitLoop_some]
    simp only [Prod.mk.injEq, sumReward, List.map_cons, List.sum_cons, loudAt_eq_reward]
    constructor <;> ring_nf

/-! ### Length preservation through one generation -/

lemma insertByFitness_length (g : Genome) (l : List Genome) :
    (insertByFitness g l).length = l.length + 1 := by
  induction l with
  | nil => rfl
  | cons h t ih =>
    rw [insertByFitness]
    by_cases hc : g.fitness < h.fitness
    · rw [if_pos hc]
      simp [ih]
    · rw [if_neg hc]
      simp

lemma sortByFitness_length (l : List Genome) : (sortByFitness l).length = l.length := by
  induction l with
  | nil => rfl
  | cons g t ih => rw [sortByFitness, insertByFitness_length, ih, List.length_cons]

lemma evalPop_length (world : World) (tgt : Target) (pop : List Genome) :
    (evalPop world tgt pop).length = pop.length := by
  simp [evalPop]

lemma makePop_length (cfg : Params) (world : World) :
    ∀ n s, (makePop cfg world n s).1.length = n := by
  intro n
  induction n with
  | zero => intro s; rfl
  | succ n ih =>
    intro s
    rw [makePop]
    simp [ih]

lemma breedLoop_length_aux (cfg : Params) (pop : List Genome) :
    ∀ n (acc : List Genome) (s : ℕ), cfg.popSize - acc.length ≤ n →
      (breedLoop cfg pop acc s).1.length = max cfg.popSize acc.length := by
  intro n
  induction n with
  | zero =>
    intro acc s h
    rw [breedLoop, if_neg (by omega)]
    show acc.length = max cfg.popSize acc.length
    omega
  | succ n ih =>
    intro acc s h
    by_cases hlt : acc.length < cfg.popSize
    · have harg : cfg.popSize - (acc ++ [(breedOne cfg pop s).1]).length ≤ n := by
        simp only [List.length_append, List.length_cons, List.length_nil]
        omega
      rw [breedLoop, if_pos hlt, ih _ _ harg]
      simp only [List.length_append, List.length_cons, List.length_nil]
      omega
    · rw [breedLoop, if_neg hlt]
      show acc.length = max cfg.popSize acc.length
      omega

lemma breedLoop_length (cfg : Params) (pop acc : List Genome) (s : ℕ) :
    (breedLoop cfg pop acc s).1.length = max cfg.popSize acc.length :=
  breedLoop_length_aux cfg pop cfg.popSize acc s (by omega)

lemma stepGen_pop_length (cfg : Params) (world : World) (tgt : Target) (st : RunState)
    (h : 1 ≤ cfg.popSize) : (stepGen cfg world tgt st).pop.length = cfg.popSize := by
  simp only [stepGen]
  rw [sortByFitness_length, evalPop_length, breedLoop_length]
  simp only [List.length_cons, List.length_nil]
  omega

lemma initState_pop_length (cfg : Params) (world : World) (tgt : Target) (seed : ℕ) :
    (initState cfg world tgt seed).pop.length = cfg.popSize := by
  simp only [initState]
  rw [sortByFitness_length, evalPop_length, makeInitialPopulation, makePop_length]

lemma iterate_pop_length (cfg : Params) (world : World) (tgt : Target) (seed : ℕ)
    (h : 1 ≤ cfg.popSize) :
    ∀ n, ((stepGen cfg world tgt)^[n] (initState cfg world tgt seed)).pop.length
      = cfg.popSize := by
  intro n
  induction n with
  | zero => simpa using initState_pop_length cfg world tgt seed
  | succ n ih =>
    rw [Function.iterate_succ_apply']
    exact stepGen_pop_length cfg world tgt _ h

/-! ### Best-ever update shape -/

lemma stepGen_best_step (cfg : Params) (world : World) (tgt : Target) (st : RunState) :
    (stepGen cfg world tgt st).lastBest = st.lastBest ∨
      st.lastBest.fitness < (stepGen cfg world tgt st).lastBest.fitness := by
  simp only [stepGen]
  split_ifs with hc
  · right
    simpa [cloneGenome] using hc
  · left
    rfl

/-! ### Claim theorems -/

/-- C1. Determinism: the evolution run is a pure function of the seed, the
configuration, the world geometry and the targeting mode (every random draw
comes from the seeded xorshift32 stream), so two independent runs with the
same seed produce the identical sequence of `(generationIndex, bestFitness)`
pairs and an identical final best genome (identical control points). -/
theorem run_determinism (cfg : Params) (world : World) (tgt : Target)
    (seed1 seed2 : ℕ) (h : seed1 = seed2) :
    genTrace cfg world tgt seed1 = genTrace cfg world tgt seed2 ∧
      (finalState cfg world tgt seed1).lastBest.ctrl
        = (finalState cfg world tgt seed2).lastBest.ctrl := by
  subst h
  exact ⟨rfl, rfl⟩

/-- Witness for C1 at the scenario seed 12345 with the source's
configuration. -/
theorem run_determinism_witness :
    (12345 : ℕ) = 12345 ∧
      (genTrace PARAMS WORLD defaultTarget 12345 = genTrace PARAMS WORLD defaultTarget 12345 ∧
        (finalState PARAMS WORLD defaultTarget 12345).lastBest.ctrl
          = (finalState PARAMS WORLD defaultTarget 12345).lastBest.ctrl) :=
  ⟨rfl, run_determinism PARAMS WORLD defaultTarget 12345 12345 rfl⟩

/-- C2. Population-size invariant: with `popSize ≥ 1`, every driver state of
one run — generation 0 (after seeding) through the generation budget, each
generation comprising elitism, offspring insertion, evaluation and sorting —
carries a population of exactly `popSize` genomes. -/
theorem population_size_invariant (cfg : Params) (world : World) (tgt : Target)
    (seed : ℕ) (h : 1 ≤ cfg.popSize) :
    (runStates cfg world tgt seed).length = cfg.generations + 1 ∧
      List.Forall (fun st : RunState => st.pop.length = cfg.popSize)
        (runStates cfg world tgt seed) := by
  constructor
  · simp [runStates]
  · rw [List.forall_iff_forall_mem]
    intro st hst
    rw [runStates] at hst
    obtain ⟨n, hn, rfl⟩ := List.mem_map.mp hst
    exact iterate_pop_length cfg world tgt seed h n

/-- Witness for C2 at seed 12345 with the source's configuration
(`popSize = 28`, `generations = 45`). -/
theorem population_size_invariant_witness :
    1 ≤ PARAMS.popSize ∧
      ((runStates PARAMS WORLD defaultTarget 12345).length = PARAMS.generations + 1 ∧
        List.Forall (fun st : RunState => st.pop.length = PARAMS.popSize)
          (runStates PARAMS WORLD defaultTarget 12345)) :=
  ⟨by decide, population_size_invariant PARAMS WORLD defaultTarget 12345 (by decide)⟩

/-- C3. Monotonic best-ever: along one run the tracked best-ever genome's
fitness never decreases, and the genome itself is replaced only when a
strictly better fitness appears (otherwise it is kept unchanged). -/
theorem best_ever_monotone (cfg : Params) (world : World) (tgt : Target) (seed : ℕ) :
    List.Chain' (fun g h : Genome => g.fitness ≤ h.fitness)
        (bestTrace cfg world tgt seed) ∧
      List.Chain' (fun g h : Genome => h = g ∨ g.fitness < h.fitness)
        (bestTrace cfg world tgt seed) := by
  have key : ∀ m : ℕ,
      ((stepGen cfg world tgt)^[m + 1] (initState cfg world tgt seed)).lastBest
          = ((stepGen cfg world tgt)^[m] (initState cfg world tgt seed)).lastBest
        ∨ ((stepGen cfg world tgt)^[m] (initState cfg world tgt seed)).lastBest.fitness
            < ((stepGen cfg world tgt)^[m + 1] (initState cfg world tgt seed)).lastBest.fitness := by
    intro m
    rw [Function.iterate_succ_apply']
    exact stepGen_best_step cfg world tgt _
  constructor
  · rw [bestTrace, runStates, List.map_map, List.chain'_map, List.chain'_range_succ]
    intro m hm
    simp only [Function.comp]
    rcases key m with heq | hlt
    · rw [heq]
    · exact le_of_lt hlt
  · rw [bestTrace, runStates, List.map_map, List.chain'_map, List.chain'_range_succ]
    intro m hm
    simp only [Function.comp]
    exact key m

/-- C4. Path endpoint invariant: for every genome and positive sample count,
the first sampled point is exactly the start `A` and the last is exactly the
goal `B`, hence within the claimed `1e-6` tolerance. -/
theorem path_endpoints (world : World) (g : Genome) (steps : ℕ) (h : 0 < steps) :
    dist3 ((pathPoints world g steps).headD zero3) world.A ≤ 1e-6 ∧
      dist3 ((pathPoints world g steps).getLastD zero3) world.B ≤ 1e-6 := by
  rw [pathPoints_headD, pathPoints_getLastD world g steps h, dist3_self, dist3_self]
  norm_num

/-- Witness for C4 at the source's display sample count 140 and a concrete
genome. -/
theorem path_endpoints_witness :
    0 < 140 ∧
      (dist3 ((pathPoints WORLD sampleGenome 140).headD zero3) WORLD.A ≤ 1e-6 ∧
        dist3 ((pathPoints WORLD sampleGenome 140).getLastD zero3) WORLD.B ≤ 1e-6) :=
  ⟨by decide, path_endpoints WORLD sampleGenome 140 (by decide)⟩

/-- C5 counterexample: `pathPoints(genome, 140)` does not return 140 points —
`CurvePath.getSpacedPoints(divisions)` samples parameters `i / divisions`
for `i = 0 .. divisions` inclusive, so it returns `steps + 1 = 141` points. -/
theorem pathPoints_count_counterexample :
    ¬ (pathPoints WORLD sampleGenome 140).length = 140 := by
  rw [pathPoints_length]
  omega

/-- C5 (amended). The Curve Builder returns an ordered sequence of exactly
`steps + 1` points (one per sample parameter `i / steps`, `i = 0 .. steps`),
and it is a pure function: the same control points and the same `steps`
always yield the identical output sequence. -/
theorem pathPoints_count_and_pure (world : World) (g : Genome) (steps : ℕ) :
    (pathPoints world g steps).length = steps + 1 ∧
      pathPoints world g steps = pathPoints world g steps :=
  ⟨pathPoints_length world g steps, rfl⟩

/-- C6. Fitness formula: the Fitness Evaluator returns
`S - λ·(len / sampleSteps) + goalBonus` with `S` the summed per-point
reward, `len` the polyline length of the sampled path, `λ = 0.25`,
`sampleSteps = 80` and `goalBonus = 1.0`. -/
theorem fitness_formula (world : World) (tgt : Target) (g : Genome) :
    (evaluateFitness world tgt g).2
      = sumReward world tgt (pathPoints world g 80)
        - 0.25 * (polyLen (pathPoints world g 80) / 80) + 1.0 := by
  simp only [evaluateFitness]
  rw [fitLoop_none]
  simp

/-- C7. Per-point reward: the loudness used by the Fitness Evaluator is
`max(Il, Ir)` in mode `Either` (the initial value of `TARGET`), exactly `Il`
in mode `Left`, and exactly `Ir` in mode `Right`. -/
theorem reward_per_mode (world : World) (p : Vec3) :
    loudAt world Target.either p
        = max (intensityAtPoint p world.speakerL 1.0) (intensityAtPoint p world.speakerR 1.0)
      ∧ loudAt world Target.left p = intensityAtPoint p world.speakerL 1.0
      ∧ loudAt world Target.right p = intensityAtPoint p world.speakerR 1.0
      ∧ defaultTarget = Target.either := by
  refine ⟨?_, ?_, ?_, rfl⟩ <;> simp [loudAt]

/-- C8. Fitness purity and frame: evaluating a genome leaves its control
points unchanged, writes exactly the returned scalar into its `fitness`
field, and re-evaluating the updated genome (same world state) returns the
same scalar — the result depends only on the control points. -/
theorem fitness_pure_and_frame (world : World) (tgt : Target) (g : Genome) :
    (evaluateFitness world tgt g).1.ctrl = g.ctrl
      ∧ (evaluateFitness world tgt g).1.fitness = ((evaluateFitness world tgt g).2 : EReal)
      ∧ (evaluateFitness world tgt ((evaluateFitness world tgt g).1)).2
          = (evaluateFitness world tgt g).2 :=
  ⟨rfl, rfl, rfl⟩

/-- On clamping, the repositioned second speaker sits exactly `6` away from
the first along `x`, so the distance is at least `6`. -/
lemma dist3_clamped_x (lx lz rz c : ℝ) (hc : c = 6.0 ∨ c = -6.0) :
    (6.0 : ℝ) ≤ dist3 ⟨lx, 0, lz⟩ ⟨lx + c, 0, rz⟩ := by
  have hd : dist3 (⟨lx, 0, lz⟩ : Vec3) (⟨lx + c, 0, rz⟩ : Vec3)
      = Real.sqrt ((lx - (lx + c)) ^ 2 + ((0 : ℝ) - 0) ^ 2 + (lz - rz) ^ 2) := rfl
  have hsq : (lx - (lx + c)) ^ 2 + ((0 : ℝ) - 0) ^ 2 + (lz - rz) ^ 2
      = 36 + (lz - rz) ^ 2 := by
    rcases hc with rfl | rfl <;> ring_nf
  rw [hd, hsq]
  have h6 : (6.0 : ℝ) = Real.sqrt 36 := by
    rw [show (36 : ℝ) = 6 ^ 2 by norm_num, Real.sqrt_sq (by norm_num : (0:ℝ) ≤ 6)]
    norm_num
  rw [h6]
  exact Real.sqrt_le_sqrt (by nlinarith [sq_nonneg (lz - rz)])

/-- C9. Minimum separation: after any reposition-sources call the two
speakers are at least `minDist = 6.0` apart; when the jittered positions
would violate this, the second speaker is clamped along the `x` axis
deterministically instead of the call failing. -/
theorem reposition_min_separation (baseL baseR : Vec3) (amount : ℝ) (s : ℕ) :
    (6.0 : ℝ) ≤ dist3 (jitterSpeakers baseL baseR amount s).1
      (jitterSpeakers baseL baseR amount s).2.1 := by
  simp only [jitterSpeakers]
  split_ifs with h1 h2
  · exact dist3_clamped_x _ _ _ _ (Or.inl rfl)
  · exact dist3_clamped_x _ _ _ _ (Or.inr rfl)
  · exact not_lt.mp h1

/-- C10. Seed-zero degeneracy: constructing the PRNG with seed 0 leaves the
xorshift32 state at 0 forever, so every `rand()` call returns exactly 0 — a
constant stream, still inside the documented range `[0, 1)`. -/
theorem seed_zero_degenerate (n : ℕ) :
    randState 0 n = 0 ∧ nthRand 0 n = 0 ∧ 0 ≤ nthRand 0 n ∧ nthRand 0 n < 1 := by
  have h := randState_zero n
  have hv : nthRand 0 n = 0 := by
    rw [nthRand, h]
    simp [randQ, xorshiftStep_zero]
  exact ⟨h, hv, by rw [hv], by rw [hv]; norm_num⟩

end BinauralPathfinder
